import Mathlib

/-!
Verification development for the `pprlblock` repository: a shallow embedding
of the two blocking pipelines,

* `pprl2partyknnsorted.py` — sorted-neighbourhood k-anonymous blocking
  (`PPRLIndex2PartyKAnonymousSortedNeighbour`), and
* `pprlpsig.py` — probability-signature Bloom-filter blocking
  (`PPRLIndexPSignature`),

together with theorems settling the spec's claims about them.

Modelling conventions:
* record identifiers are natural numbers;
* Python dictionaries are association lists in insertion order;
* Python sets of Bloom-filter bit positions are `Finset ℕ`;
* similarity scores and thresholds (Python floats in [0,1]) are rationals;
* a raised Python exception (`StopIteration`, `KeyError`, attribute access on
  never-assigned state) is `Option.none`;
* the external `hashlib.sha1` / `hashlib.md5` digests are parameters
  `h1 h2 : String → Nat` (the code only takes their integer digest mod the
  filter length, so any digest function instantiates the model);
* block keys `'b_0_1_2_'` (underscore-joined reference positions) are modelled
  as their lists of positions `[0, 1, 2]`.  The substring test
  `'_p_' in key` used by the merge pass holds exactly when `p` is one of the
  key's positions, because every position is rendered as a full
  underscore-delimited decimal segment, so the test is membership in the list.
-/

namespace Pprlblock

/-- Lexicographic comparison of character lists; `charListLe a b` is Python's
string comparison `a <= b` restricted to the underlying code points. -/
def charListLe : List Char → List Char → Bool
  | [], _ => true
  | _ :: _, [] => false
  | a :: as, b :: bs => if a < b then true else if b < a then false else charListLe as bs

/-- Python string `<=` (lexicographic on code points). -/
def pyStrLe (a b : String) : Bool := charListLe a.data b.data

/-- Modelled from the spec: `SORTED_FIRST_VAL` comes from the `config` module,
which is not part of the sources; the spec describes it as the sentinel
"smallest possible value", and the empty string is the least string in
lexicographic order. -/
def SORTED_FIRST_VAL : String := ""

/-- Python `sorted` on a list of strings (ascending code-point order).
Sorting strings is insensitive to the choice of stable algorithm because
equal strings are identical values. -/
def pySorted (l : List String) : List String :=
  List.insertionSort (fun a b => pyStrLe a b = true) l

/-- Sort-key value of a record: concatenation of the selected attribute
columns (`sk_val += rec_list[col_num]` in `__generate_sorted_index__`, and
`ps = ''.join(value)` in `get_ngram`). -/
def skv (rec_list : List String) (attr_select_list : List Nat) : String :=
  attr_select_list.foldl (fun acc c => acc ++ rec_list.getD c "") ""

/-- Python `bisect.bisect` (right bisection) on a sorted list: the number of elements
`<=` the probe, which is the upper-bound insertion point. -/
def bisect_right (l : List String) (x : String) : Nat :=
  l.countP (fun r => pyStrLe r x)

/-- The dictionary `ref_ind_dict` of `__sort_ref_values_alice__` / `__sort_ref_values_bob__`:
position `0` holds the sentinel, position `p ≥ 1` holds the `p`-th smallest
reference value. -/
def ref_ind_at (sort_ref_val_list : List String) (pos : Nat) : String :=
  if pos = 0 then SORTED_FIRST_VAL else sort_ref_val_list.getD (pos - 1) SORTED_FIRST_VAL

/-- Reference value that `__generate_sorted_index__` assigns to a record: the
value of `ref_ind_dict` at the bisection position of the record's sort key. -/
def assigned_ref (sort_ref_val_list : List String) (attr_select_list : List Nat)
    (rec_list : List String) : String :=
  ref_ind_at sort_ref_val_list (bisect_right sort_ref_val_list (skv rec_list attr_select_list))

/-- The populated `ref_val_dict` of `__generate_sorted_index__`, as a function
from a reference value to the record ids inserted under it: the ids (in
record-table order) whose sort key bisects to that reference value. -/
def ref_val_dict (rec_dict : List (Nat × List String)) (attr_select_list : List Nat)
    (sort_ref_val_list : List String) (rv : String) : List Nat :=
  (rec_dict.filter fun p =>
    decide (assigned_ref sort_ref_val_list attr_select_list p.2 = rv)).map (fun p => p.1)

/-- Inner loop of the SIM branch of `__generate_sorted_index__`: starting at
position `i` with `j` positions already consumed, grow the working group while
`((num_elements <= k) and (i+j < N)) or ((sim_val >= min_sim_threshold) and
(i+j < N))`, and return the total number of consumed positions together with
the accumulated record ids.  `sim_val` is only refreshed when `i+j+1 ≠ N`,
exactly as in the source.  The fuel argument merely bounds the recursion:
every iteration forces `i + j < N`, so `N + 1` units always suffice. -/
def grow_aux (sim_measure : String → String → ℚ) (min_sim_threshold : ℚ) (k N : Nat)
    (ref_ind : Nat → String) (ref_vals : String → List Nat) (i : Nat) :
    Nat → Nat → Nat → List Nat → ℚ → Nat × List Nat
  | 0, j, _, blk, _ => (j, blk)
  | fuel + 1, j, num_elements, blk, sim_val =>
    if (num_elements ≤ k ∧ i + j < N) ∨ (sim_val ≥ min_sim_threshold ∧ i + j < N) then
      let this_ref_val := ref_ind (i + j)
      let this_element_list := ref_vals this_ref_val
      let sim_val' :=
        if i + j + 1 ≠ N then sim_measure this_ref_val (ref_ind (i + j + 1)) else sim_val
      grow_aux sim_measure min_sim_threshold k N ref_ind ref_vals i fuel (j + 1)
        (num_elements + this_element_list.length) (blk ++ this_element_list) sim_val'
    else (j, blk)

/-- One iteration of the outer SIM merge sweep: grow a group from position
`i`; if it holds fewer than `k` record ids, merge it into the unique earlier
block containing position `i - 1` (deleting that block and appending the
merged one), failing (`StopIteration`, modelled as `none`) when `i = 0` or no
such block exists; otherwise append the group as a fresh block.  Returns the
next position and the updated block dictionary. -/
def sweep_step (sim_measure : String → String → ℚ) (min_sim_threshold : ℚ) (k N : Nat)
    (ref_ind : Nat → String) (ref_vals : String → List Nat) (i : Nat)
    (block_dict : List (List Nat × List Nat)) :
    Option (Nat × List (List Nat × List Nat)) :=
  let jb := grow_aux sim_measure min_sim_threshold k N ref_ind ref_vals i (N + 1) 0 0 [] 0
  let j := jb.1
  let this_blk_elements_list := jb.2
  if this_blk_elements_list.length < k then
    if i = 0 then none
    else
      match block_dict.find? (fun p => decide ((i - 1) ∈ p.1)) with
      | none => none
      | some prev =>
        some (i + j,
          (block_dict.eraseP (fun p => decide ((i - 1) ∈ p.1))) ++
            [(prev.1 ++ (List.range j).map (i + ·), this_blk_elements_list ++ prev.2)])
  else
    some (i + j, block_dict ++ [((List.range j).map (i + ·), this_blk_elements_list)])

/-- Outer SIM merge sweep (`while i < len_sort_ref_list`), iterating
`sweep_step` from position `i`.  Fuel `N + 1` always suffices because each
step consumes at least one position. -/
def sweep_sim (sim_measure : String → String → ℚ) (min_sim_threshold : ℚ) (k N : Nat)
    (ref_ind : Nat → String) (ref_vals : String → List Nat) :
    Nat → Nat → List (List Nat × List Nat) → Option (List (List Nat × List Nat))
  | 0, i, block_dict => if i < N then none else some block_dict
  | fuel + 1, i, block_dict =>
    if i < N then
      match sweep_step sim_measure min_sim_threshold k N ref_ind ref_vals i block_dict with
      | none => none
      | some st =>
        sweep_sim sim_measure min_sim_threshold k N ref_ind ref_vals fuel st.1 st.2
    else some block_dict

/-- The method `__generate_sorted_index__`: insert every record into the bucket of its
bisection reference value, then, in SIM mode only, run the merge sweep over
positions `0 .. N-1`; in SIZE mode no sweep exists in the source and the block
dictionary is returned still empty. -/
def generate_sorted_index (k : Nat) (sim_measure : String → String → ℚ)
    (min_sim_threshold : ℚ) (sim_or_size : String) (rec_dict : List (Nat × List String))
    (attr_select_list : List Nat) (sort_ref_val_list : List String) :
    Option (List (List Nat × List Nat)) :=
  let N := sort_ref_val_list.length
  if sim_or_size = "SIM" then
    sweep_sim sim_measure min_sim_threshold k N (ref_ind_at sort_ref_val_list)
      (ref_val_dict rec_dict attr_select_list sort_ref_val_list) (N + 1) 0 []
  else some []

/-- The method `__select_rep_ref_vals__`: for every block, expose all reference positions
of its key, and register `reference value ↦ block key` in the representative
index only when the value is not registered yet (first write wins).  Returns
the exposed positions and the representative index. -/
def select_rep_ref_vals (block_index : List (List Nat × List Nat))
    (ref_ind : Nat → String) : List Nat × List (String × List Nat) :=
  block_index.foldl
    (fun acc p =>
      (acc.1 ++ p.1,
        p.1.foldl
          (fun rep_index ref_num =>
            if (rep_index.lookup (ref_ind ref_num)).isSome then rep_index
            else rep_index ++ [(ref_ind ref_num, p.1)])
          acc.2))
    ([], [])

/-- Mutable state of a `PPRLIndex2PartyKAnonymousSortedNeighbour` instance.
Fields that the source only ever assigns inside a builder method (and that a
fresh instance therefore lacks) are `Option`-typed, `none` meaning "not yet
set"; reading such a field through `Option.bind` models the exception raised
on unset state. -/
structure SnnState where
  k : Nat
  w : Nat
  sim_measure : String → String → ℚ
  min_sim_threshold : ℚ
  sim_or_size : String
  ref_val_list_alice : Option (List String) := none
  ref_val_list_bob : Option (List String) := none
  rec_dict_alice : Option (List (Nat × List String)) := none
  rec_dict_bob : Option (List (Nat × List String)) := none
  sort_ref_val_list_alice : Option (List String) := none
  sort_ref_val_list_bob : Option (List String) := none
  attr_select_list_alice : Option (List Nat) := none
  attr_select_list_bob : Option (List Nat) := none
  alice_rep_vals : List String := []
  bob_rep_vals : List String := []
  alice_rep_index : List (String × List Nat) := []
  bob_rep_index : List (String × List Nat) := []
  index_alice : Option (List (List Nat × List Nat)) := none
  index_bob : Option (List (List Nat × List Nat)) := none

/-- The method `build_index_alice`: sort Alice's reference values, generate her sorted
index, select the representative values, and append the exposed reference
values to the instance list `alice_rep_vals` (the source appends without
clearing).  The `block_stats` call and log-file output are external
collaborators and not modelled. -/
def build_index_alice (attrs : List Nat) (st : SnnState) : Option SnnState := do
  let ref_list ← st.ref_val_list_alice
  let sorted_refs := pySorted ref_list
  let rd ← st.rec_dict_alice
  let idx ← generate_sorted_index st.k st.sim_measure st.min_sim_threshold st.sim_or_size
    rd attrs sorted_refs
  let sel := select_rep_ref_vals idx (ref_ind_at sorted_refs)
  some { st with
    attr_select_list_alice := some attrs
    sort_ref_val_list_alice := some sorted_refs
    index_alice := some idx
    alice_rep_index := sel.2
    alice_rep_vals := st.alice_rep_vals ++ sel.1.map (ref_ind_at sorted_refs) }

/-- The method `build_index_bob`: the Bob-side twin of `build_index_alice`. -/
def build_index_bob (attrs : List Nat) (st : SnnState) : Option SnnState := do
  let ref_list ← st.ref_val_list_bob
  let sorted_refs := pySorted ref_list
  let rd ← st.rec_dict_bob
  let idx ← generate_sorted_index st.k st.sim_measure st.min_sim_threshold st.sim_or_size
    rd attrs sorted_refs
  let sel := select_rep_ref_vals idx (ref_ind_at sorted_refs)
  some { st with
    attr_select_list_bob := some attrs
    sort_ref_val_list_bob := some sorted_refs
    index_bob := some idx
    bob_rep_index := sel.2
    bob_rep_vals := st.bob_rep_vals ++ sel.1.map (ref_ind_at sorted_refs) }

/-- Per-window classification state of `generate_blocks`: the running counts
`num_alice_ref` / `num_bob_ref` and the distinct-value lists
`this_win_alice_ref` / `this_win_bob_ref`. -/
structure WinSt where
  numA : Nat
  numB : Nat
  refA : List String
  refB : List String

/-- Classification of one window element: bump the Alice counter and record
the value (if new) when it belongs to Alice's exposed values, then likewise
for Bob (a value may belong to both parties). -/
def classify_step (alice_rep_vals bob_rep_vals : List String) (st : WinSt)
    (val : String) : WinSt :=
  let st1 :=
    if val ∈ alice_rep_vals then
      { st with
        numA := st.numA + 1
        refA := if val ∈ st.refA then st.refA else st.refA ++ [val] }
    else st
  if val ∈ bob_rep_vals then
    { st1 with
      numB := st1.numB + 1
      refB := if val ∈ st1.refB then st1.refB else st1.refB ++ [val] }
  else st1

/-- Window-extension loop of `generate_blocks`: while either party's counter
is below `w`, append the next element of the sorted union and classify it;
stop (Python `break`) when no element remains.  Because the sorted union is
duplicate-free, looking up the index of the window's last element and taking
the following element is the same as consuming the suffix that follows the
window, which is the `rest` argument here. -/
def extend_win (alice_rep_vals bob_rep_vals : List String) (w : Nat) :
    WinSt → List String → WinSt
  | st, [] => st
  | st, next :: rest =>
    if st.numA < w ∨ st.numB < w then
      extend_win alice_rep_vals bob_rep_vals w
        (classify_step alice_rep_vals bob_rep_vals st next) rest
    else st

/-- Append a candidate pair unless it was already emitted
(`if [this_alice_ref, this_bob_ref] not in cand_ref_list`). -/
def add_pair (acc : List (String × String)) (p : String × String) :
    List (String × String) :=
  if p ∈ acc then acc else acc ++ [p]

/-- Emit every (Alice value, Bob value) pair of a classified window into the
global candidate list, deduplicating against it. -/
def emit_pairs (acc : List (String × String)) (st : WinSt) : List (String × String) :=
  st.refA.foldl (fun acc a => st.refB.foldl (fun acc b => add_pair acc (a, b)) acc) acc

/-- Classified and extended state of the window starting at union index `i`:
the `2*w` consecutive elements produced by the tee-based `__window__`,
classified in order and then extended over the remaining suffix. -/
def window_state (alice_rep_vals bob_rep_vals : List String) (w : Nat)
    (rep_val_list : List String) (i : Nat) : WinSt :=
  extend_win alice_rep_vals bob_rep_vals w
    (((rep_val_list.drop i).take (2 * w)).foldl
      (classify_step alice_rep_vals bob_rep_vals) ⟨0, 0, [], []⟩)
    (rep_val_list.drop (i + 2 * w))

/-- Global candidate-pair list of `generate_blocks`: `__window__` yields the
windows starting at indices `0 .. len - 2*w`, and each window's pairs are
emitted into one shared deduplicated list. -/
def cand_ref_list (alice_rep_vals bob_rep_vals : List String) (w : Nat)
    (rep_val_list : List String) : List (String × String) :=
  (List.range (rep_val_list.length + 1 - 2 * w)).foldl
    (fun acc i => emit_pairs acc (window_state alice_rep_vals bob_rep_vals w rep_val_list i))
    []

/-- Resolve one candidate value pair through the representative indexes and
party indexes (`alice_rep_index[alice_rep]`, `index_alice[alice_block]`, then
the Bob side); a missing key is a `KeyError`, modelled as `none`. -/
def resolve_pair (alice_rep_index bob_rep_index : List (String × List Nat))
    (index_alice index_bob : List (List Nat × List Nat)) (p : String × String) :
    Option (List Nat × List Nat) := do
  let alice_block ← alice_rep_index.lookup p.1
  let alice_rec_ids ← index_alice.lookup alice_block
  let bob_block ← bob_rep_index.lookup p.2
  let bob_rec_ids ← index_bob.lookup bob_block
  some (alice_rec_ids, bob_rec_ids)

/-- Resolve the candidate pairs in order, propagating the first `KeyError`;
entry `n` of the result is the block stored under key `cand_blk_key = n`. -/
def resolve_all (f : String × String → Option (List Nat × List Nat)) :
    List (String × String) → Option (List (List Nat × List Nat))
  | [] => some []
  | p :: l => do
    let b ← f p
    let bs ← resolve_all f l
    some (b :: bs)

/-- Sorted union of both parties' exposed representative values with the
sentinel removed (`set | set`, `sorted`, `remove(SORTED_FIRST_VAL)`). -/
def snn_rep_list (st : SnnState) : List String :=
  (pySorted (st.alice_rep_vals ++ st.bob_rep_vals).dedup).erase SORTED_FIRST_VAL

/-- The method `generate_blocks` of the sorted-neighbourhood class: read both party
indexes (unset state raises, modelled as `none`), slide the window over the
sorted union of exposed values, and resolve the deduplicated candidate pairs
into the final block table keyed by consecutive integers. -/
def snn_generate_blocks (st : SnnState) : Option (List (List Nat × List Nat)) := do
  let idxA ← st.index_alice
  let idxB ← st.index_bob
  resolve_all (resolve_pair st.alice_rep_index st.bob_rep_index idxA idxB)
    (cand_ref_list st.alice_rep_vals st.bob_rep_vals st.w (snn_rep_list st))

/-- Python slice `s[i : i+len]` on a string. -/
def py_slice (s : String) (i len : Nat) : String :=
  String.mk ((s.data.drop i).take len)

/-- Padded input of `__str2bf__`: when padding is enabled, `Q - 1` start-pad
characters are prepended and `Q - 1` end-pad characters appended.  The q-gram
length and the padding configuration (`QGRAM_LEN`, `QGRAM_PADDING`,
`PADDING_START_CHAR`, `PADDING_END_CHAR`) come from the `config` module, which
is not part of the sources, so they are parameters here. -/
def pad_str (Q : Nat) (padding : Bool) (pad_start pad_end : Char) (s : String) : String :=
  if padding then
    String.mk (List.replicate (Q - 1) pad_start) ++ s ++ String.mk (List.replicate (Q - 1) pad_end)
  else s

/-- Contiguous length-`Q` substrings via a sliding index
(`[ps[i:i+QGRAM_LEN] for i in range(len(ps) - q_minus_1)]`), with no padding
applied. -/
def raw_grams (Q : Nat) (ps : String) : List String :=
  (List.range (ps.length - (Q - 1))).map (fun i => py_slice ps i Q)

/-- The q-gram list built inside `__str2bf__`: the sliding extraction applied
to the (optionally padded) input. -/
def str2bf_grams (Q : Nat) (padding : Bool) (pad_start pad_end : Char) (s : String) :
    List String :=
  let ps :=
    if padding then
      String.mk (List.replicate (Q - 1) pad_start) ++ s ++
        String.mk (List.replicate (Q - 1) pad_end)
    else s
  (List.range (ps.length - (Q - 1))).map (fun i => py_slice ps i Q)

/-- One gram of one record inside `get_ngram`: add the gram to the n-gram set
(Python set, modelled as a first-occurrence list) and append the record key to
the gram's entry of the n-gram dictionary. -/
def gram_step (key : Nat) (acc : List String × List (String × List Nat)) (gram : String) :
    List String × List (String × List Nat) :=
  (if gram ∈ acc.1 then acc.1 else acc.1 ++ [gram],
    match acc.2.lookup gram with
    | some l => acc.2.map (fun p => if p.1 = gram then (gram, l ++ [key]) else p)
    | none => acc.2 ++ [(gram, [key])])

/-- The method `get_ngram`: for every record, join the selected attributes and emit every
contiguous length-`Q` substring of the joined string — the source applies no
padding here — accumulating the party-wide n-gram set and the n-gram → record
ids dictionary. -/
def get_ngram (Q : Nat) (records : List (Nat × List String))
    (ngram_dict : List (String × List Nat)) (attr_list : List Nat) :
    List String × List (String × List Nat) :=
  records.foldl
    (fun acc p => (raw_grams Q (skv p.2 attr_list)).foldl (gram_step p.1) acc)
    ([], ngram_dict)

/-- The method `ngram2bf`: the double-hashing Bloom filter of one n-gram — bit positions
`(digest1 + i * digest2) % bf_len` for `i < num_hash_funct`.  The digests
`h1`, `h2` stand for the integer values of the `hashlib.sha1` / `hashlib.md5`
hexdigests, which are external to the sources. -/
def ngram2bf (h1 h2 : String → Nat) (bf_len num_hash_funct : Nat) (ngram : String) :
    Finset ℕ :=
  (Finset.range num_hash_funct).image (fun i => (h1 ngram + i * h2 ngram) % bf_len)

/-- The method `create_bloom_filter`: union of the per-n-gram Bloom filters. -/
def create_bloom_filter (h1 h2 : String → Nat) (bf_len num_hash_funct : Nat)
    (ngrams : List String) : Finset ℕ :=
  ngrams.foldl (fun bloom g => bloom ∪ ngram2bf h1 h2 bf_len num_hash_funct g) ∅

/-- The method `common_bloom_filter`: intersection of the two parties' aggregate Bloom
filters. -/
def common_bloom_filter (alice_bf bob_bf : Finset ℕ) : Finset ℕ :=
  alice_bf ∩ bob_bf

/-- The method `microblocks`: keep an n-gram's entry exactly when its own Bloom filter
satisfies `bf.intersection(common_bf) == bf`. -/
def microblocks (h1 h2 : String → Nat) (bf_len num_hash_funct : Nat)
    (common_bf : Finset ℕ) (ngram_dict : List (String × List Nat)) :
    List (String × List Nat) :=
  ngram_dict.filter fun p =>
    decide (ngram2bf h1 h2 bf_len num_hash_funct p.1 ∩ common_bf =
      ngram2bf h1 h2 bf_len num_hash_funct p.1)

/-- Mutable state of a `PPRLIndexPSignature` instance; as in `SnnState`,
fields a fresh instance lacks (the per-party revert indexes, set only by the
two builders) are `Option`-typed. -/
structure PsigState where
  num_hash_funct : Nat
  bf_len : Nat
  h1 : String → Nat
  h2 : String → Nat
  alice_bf : Option (Finset ℕ) := none
  bob_bf : Option (Finset ℕ) := none
  common_bf : Option (Finset ℕ) := none
  ngram_alice_dict : List (String × List Nat) := []
  ngram_bob_dict : List (String × List Nat) := []
  rec_dict_alice : Option (List (Nat × List String)) := none
  rec_dict_bob : Option (List (Nat × List String)) := none
  index_alice : Option (List (String × List Nat)) := none
  index_bob : Option (List (String × List Nat)) := none

/-- The method `generate_blocks` of the p-sig class: reading an unbuilt party index
raises (modelled as `none`); otherwise every n-gram key of Alice's revert
index that also appears in Bob's contributes one block under the next
consecutive integer key. -/
def psig_generate_blocks (ps : PsigState) : Option (List (List Nat × List Nat)) := do
  let idxA ← ps.index_alice
  let idxB ← ps.index_bob
  some (idxA.foldl
    (fun acc p =>
      match idxB.lookup p.1 with
      | some bob_block_vals => acc ++ [(p.2, bob_block_vals)]
      | none => acc)
    [])

/-! ## Theorems settling the claims -/

/-- C2: an n-gram's entry is kept by `microblocks` against the common
signature (the intersection of the two parties' aggregate Bloom filters) if
and only if the entry is in the party's n-gram index and the n-gram's own
Bloom filter is a full subset of the common signature; mere overlap without
containment is discarded. -/
theorem microblock_kept_iff_subset (h1 h2 : String → Nat) (bf_len H : Nat)
    (alice_bf bob_bf : Finset ℕ) (ngram_dict : List (String × List Nat))
    (g : String) (v : List Nat) :
    (g, v) ∈ microblocks h1 h2 bf_len H (common_bloom_filter alice_bf bob_bf) ngram_dict ↔
      (g, v) ∈ ngram_dict ∧
        ngram2bf h1 h2 bf_len H g ⊆ common_bloom_filter alice_bf bob_bf := by
  simp [microblocks, List.mem_filter, Finset.inter_eq_left, common_bloom_filter]

/-- C7: for a positive filter length, `ngram2bf` stays inside `[0, bf_len)`,
sets at most `num_hash_funct` bit positions, and is deterministic (it is a
pure function, so repeated calls with the same arguments are the same term). -/
theorem ngram2bf_props (h1 h2 : String → Nat) (bf_len H : Nat) (g : String)
    (hpos : 0 < bf_len) :
    ngram2bf h1 h2 bf_len H g ⊆ Finset.range bf_len ∧
      (ngram2bf h1 h2 bf_len H g).card ≤ H ∧
      ngram2bf h1 h2 bf_len H g = ngram2bf h1 h2 bf_len H g := by
  refine ⟨?_, ?_, rfl⟩
  · intro x hx
    simp only [ngram2bf, Finset.mem_image, Finset.mem_range] at hx
    obtain ⟨i, -, rfl⟩ := hx
    exact Finset.mem_range.mpr (Nat.mod_lt _ hpos)
  · calc (ngram2bf h1 h2 bf_len H g).card ≤ (Finset.range H).card := Finset.card_image_le
      _ = H := Finset.card_range H

/-- Witness for C7 at a concrete digest pair, filter length 5, three hash
functions and the n-gram "ab". -/
theorem ngram2bf_props_wit :
    0 < 5 ∧
      (ngram2bf (fun s => s.length) (fun s => 3 * s.length + 1) 5 3 "ab" ⊆ Finset.range 5 ∧
        (ngram2bf (fun s => s.length) (fun s => 3 * s.length + 1) 5 3 "ab").card ≤ 3 ∧
        ngram2bf (fun s => s.length) (fun s => 3 * s.length + 1) 5 3 "ab" =
          ngram2bf (fun s => s.length) (fun s => 3 * s.length + 1) 5 3 "ab") :=
  ⟨by decide, ngram2bf_props (fun s => s.length) (fun s => 3 * s.length + 1) 5 3 "ab" (by decide)⟩

/-- C3: the sorted index can drop records.  With reference values
`["b", "d"]` and minimum block size 1, the record `3` with sort key `"e"`
bisects to position 2 — the bucket of the largest reference value `"d"` —
but the SIM merge sweep only visits positions `0` and `1`, so the returned
index is the single bucket `[0, 1] ↦ [1, 2]` and record `3` appears in no
bucket. -/
theorem record_beyond_last_ref_dropped :
    bisect_right ["b", "d"] (skv ["e"] [0]) = 2 ∧
      ref_ind_at ["b", "d"] 2 = "d" ∧
      generate_sorted_index 1 (fun _ _ => (0 : ℚ)) 1 "SIM"
        [(1, ["a"]), (2, ["c"]), (3, ["e"])] [0] ["b", "d"] = some [([0, 1], [1, 2])] ∧
      (3, ["e"]) ∈ [(1, ["a"]), (2, ["c"]), (3, ["e"])] ∧
      3 ∉ ([1, 2] : List Nat) := by decide

/-- C4: in SIZE mode `__generate_sorted_index__` has no merge branch at all
(the sweep is guarded by `if self.sim_or_size == 'SIM'`), so it returns the
still-empty block dictionary for every input, contradicting the documented
"merge blocks until they each contain k record identifiers" behaviour. -/
theorem size_mode_returns_empty_index (k : Nat) (sim_measure : String → String → ℚ)
    (t : ℚ) (rec_dict : List (Nat × List String)) (attrs : List Nat)
    (refs : List String) :
    generate_sorted_index k sim_measure t "SIZE" rec_dict attrs refs = some [] := by
  simp [generate_sorted_index]

/-- Helper for C1: one sweep step preserves the invariant that every block of
the dictionary holds at least `k` record ids — a freshly appended block is
explicitly checked to hold at least `k`, and a merged block extends a block
that already held at least `k`. -/
theorem sweep_step_preserves_min_size (simM : String → String → ℚ) (t : ℚ) (k N : Nat)
    (ref_ind : Nat → String) (ref_vals : String → List Nat) (i : Nat)
    (dict : List (List Nat × List Nat)) (st : Nat × List (List Nat × List Nat))
    (hinv : ∀ p ∈ dict, k ≤ p.2.length)
    (h : sweep_step simM t k N ref_ind ref_vals i dict = some st) :
    ∀ p ∈ st.2, k ≤ p.2.length := by
  simp only [sweep_step] at h
  split at h
  · split at h
    · exact absurd h (by simp)
    · split at h
      · exact absurd h (by simp)
      · next prev hfind =>
        obtain rfl := Option.some.inj h
        intro p hp
        rcases List.mem_append.mp hp with hp | hp
        · exact hinv p ((List.eraseP_sublist dict).subset hp)
        · have hprev : k ≤ prev.2.length :=
            hinv prev (List.mem_of_find?_eq_some hfind)
          rcases List.mem_singleton.mp hp with rfl
          simpa using le_trans hprev (by simp)
  · next hlen =>
    obtain rfl := Option.some.inj h
    intro p hp
    rcases List.mem_append.mp hp with hp | hp
    · exact hinv p hp
    · rcases List.mem_singleton.mp hp with rfl
      simpa using Nat.le_of_not_lt hlen

/-- Helper for C1: the whole SIM merge sweep preserves the minimum-size
invariant whenever it returns a dictionary. -/
theorem sweep_sim_min_size (simM : String → String → ℚ) (t : ℚ) (k N : Nat)
    (ref_ind : Nat → String) (ref_vals : String → List Nat) :
    ∀ (fuel i : Nat) (dict : List (List Nat × List Nat)),
      (∀ p ∈ dict, k ≤ p.2.length) →
      ∀ idx, sweep_sim simM t k N ref_ind ref_vals fuel i dict = some idx →
      ∀ p ∈ idx, k ≤ p.2.length := by
  intro fuel
  induction fuel with
  | zero =>
    intro i dict hinv idx h
    unfold sweep_sim at h
    split at h
    · exact absurd h (by simp)
    · obtain rfl := Option.some.inj h
      exact hinv
  | succ fuel ih =>
    intro i dict hinv idx h
    unfold sweep_sim at h
    split at h
    · cases hstep : sweep_step simM t k N ref_ind ref_vals i dict with
      | none => rw [hstep] at h; exact absurd h (by simp)
      | some stp =>
        rw [hstep] at h
        exact ih stp.1 stp.2
          (sweep_step_preserves_min_size simM t k N ref_ind ref_vals i dict stp hinv hstep)
          idx h
    · obtain rfl := Option.some.inj h
      exact hinv

/-- C1: every bucket of a SIM-mode index returned by
`__generate_sorted_index__` holds at least `k` record ids.  (When the party's
total record count is below `k`, the trailing merge finds no preceding block
and the call raises instead of returning, so no returned bucket is ever
undersized.) -/
theorem sim_mode_bucket_min_size (k : Nat) (simM : String → String → ℚ) (t : ℚ)
    (rec_dict : List (Nat × List String)) (attrs : List Nat) (refs : List String)
    (idx : List (List Nat × List Nat)) (key : List Nat) (recs : List Nat)
    (hrun : generate_sorted_index k simM t "SIM" rec_dict attrs refs = some idx)
    (hmem : (key, recs) ∈ idx) : k ≤ recs.length := by
  simp only [generate_sorted_index, if_pos] at hrun
  exact sweep_sim_min_size simM t k refs.length (ref_ind_at refs)
    (ref_val_dict rec_dict attrs refs) (refs.length + 1) 0 [] (by simp) idx hrun
    (key, recs) hmem

/-- Witness for C1 on the concrete three-record run whose returned index is
the single bucket `[0, 1] ↦ [1, 2]` with `k = 1`. -/
theorem sim_mode_bucket_min_size_wit : (1 : Nat) ≤ ([1, 2] : List Nat).length :=
  sim_mode_bucket_min_size 1 (fun _ _ => (0 : ℚ)) 1
    [(1, ["a"]), (2, ["c"]), (3, ["e"])] [0] ["b", "d"]
    [([0, 1], [1, 2])] [0, 1] [1, 2] (by decide) (by decide)

/-- C5 counterexample: with q-gram length 2 and padding enabled with pads
`'^'`/`'$'`, the record value "ab" makes `get_ngram` emit only the unpadded
bigram "ab", while the padded sliding extraction of `__str2bf__` emits
`["^a", "ab", "b$"]`; in particular the boundary gram "^a" is absent from
`get_ngram`'s output, so `get_ngram` does not apply the padding. -/
theorem get_ngram_ignores_padding_cex :
    (get_ngram 2 [(1, ["ab"])] [] [0]).1 = ["ab"] ∧
      str2bf_grams 2 true '^' '$' "ab" = ["^a", "ab", "b$"] ∧
      "^a" ∉ (get_ngram 2 [(1, ["ab"])] [] [0]).1 := by decide

/-- Helper for C5: adding one gram to the accumulated n-gram set keeps exactly
the old members plus that gram. -/
theorem mem_gram_step_fst (key : Nat) (acc : List String × List (String × List Nat))
    (gr g : String) : g ∈ (gram_step key acc gr).1 ↔ g ∈ acc.1 ∨ g = gr := by
  simp only [gram_step]
  split
  · next hin =>
    constructor
    · exact Or.inl
    · rintro (h | rfl)
      · exact h
      · exact hin
  · simp [List.mem_append]

/-- Helper for C5: membership in the n-gram set accumulated over a record's
gram list. -/
theorem mem_foldl_gram_step (key : Nat) :
    ∀ (grams : List String) (acc : List String × List (String × List Nat)) (g : String),
      g ∈ (grams.foldl (gram_step key) acc).1 ↔ g ∈ acc.1 ∨ g ∈ grams := by
  intro grams
  induction grams with
  | nil => simp
  | cons gr grams ih =>
    intro acc g
    rw [List.foldl_cons, ih, mem_gram_step_fst]
    simp [List.mem_cons]
    tauto

/-- C5 amended: when padding is enabled the sliding length-`Q` extraction over
the padded string happens inside `__str2bf__` (whose gram list is exactly the
raw sliding extraction of the padded input), whereas `get_ngram` — the
extraction feeding `alice_bloom_filter` / `bob_bloom_filter` — applies no
padding: its n-gram set for a record consists of the contiguous length-`Q`
substrings of the raw attribute concatenation. -/
theorem qgram_padding_only_in_str2bf (Q : Nat) (padding : Bool)
    (pad_start pad_end : Char) (s : String) (key : Nat) (rec : List String)
    (attrs : List Nat) (nd : List (String × List Nat)) (g : String) :
    str2bf_grams Q padding pad_start pad_end s =
        raw_grams Q (pad_str Q padding pad_start pad_end s) ∧
      (g ∈ (get_ngram Q [(key, rec)] nd attrs).1 ↔ g ∈ raw_grams Q (skv rec attrs)) := by
  constructor
  · rfl
  · have hrw : get_ngram Q [(key, rec)] nd attrs =
        (raw_grams Q (skv rec attrs)).foldl (gram_step key) ([], nd) := rfl
    rw [hrw, mem_foldl_gram_step]
    simp

/-- C6 counterexample: with Alice exposing `["a", "b", "c", "d"]`, Bob
exposing only `["d"]` and `w = 2`, the single window over the sorted union
exhausts the union while holding one distinct Bob value, and its pairs are
nevertheless emitted: the run's candidate list is non-empty although the
window contributed fewer than `w` distinct Bob-side values. -/
theorem window_short_side_cex :
    (window_state ["a", "b", "c", "d"] ["d"] 2 ["a", "b", "c", "d"] 0).refB.length = 1 ∧
      1 < 2 ∧
      cand_ref_list ["a", "b", "c", "d"] ["d"] 2 ["a", "b", "c", "d"] =
        [("a", "d"), ("b", "d"), ("c", "d"), ("d", "d")] := by decide

/-- C6 amended: the extension loop runs while either party's counter is below
`w` and elements of the sorted union remain, so every window either ends with
both counters at least `w` or has absorbed the entire remaining suffix of the
sorted union; in the latter case its pairs are emitted even though a side may
still expose fewer than `w` distinct values. -/
theorem window_extension_amended (av bv : List String) (w : Nat) (st : WinSt)
    (rest : List String) :
    extend_win av bv w st rest = rest.foldl (classify_step av bv) st ∨
      (w ≤ (extend_win av bv w st rest).numA ∧ w ≤ (extend_win av bv w st rest).numB) := by
  induction rest generalizing st with
  | nil => exact Or.inl rfl
  | cons next rest ih =>
    by_cases hc : st.numA < w ∨ st.numB < w
    · have hstep : extend_win av bv w st (next :: rest) =
          extend_win av bv w (classify_step av bv st next) rest := by
        simp [extend_win, hc]
      rw [hstep, List.foldl_cons]
      exact ih (classify_step av bv st next)
    · have hstop : extend_win av bv w st (next :: rest) = st := by
        simp [extend_win, hc]
      rw [hstop]
      exact Or.inr ⟨Nat.le_of_not_lt fun h => hc (Or.inl h),
        Nat.le_of_not_lt fun h => hc (Or.inr h)⟩

/-- Helper for C8: a fold preserves duplicate-freeness of the candidate list
when every step does. -/
theorem foldl_nodup_preserve {β : Type}
    (f : List (String × String) → β → List (String × String))
    (hf : ∀ acc b, acc.Nodup → (f acc b).Nodup) :
    ∀ (l : List β) (acc : List (String × String)), acc.Nodup → (l.foldl f acc).Nodup := by
  intro l
  induction l with
  | nil => intro acc h; exact h
  | cons b l ih => intro acc h; exact ih (f acc b) (hf acc b h)

/-- Helper for C8: `add_pair` never introduces a duplicate. -/
theorem add_pair_nodup (acc : List (String × String)) (p : String × String)
    (h : acc.Nodup) : (add_pair acc p).Nodup := by
  unfold add_pair
  split
  · exact h
  · next hn =>
    refine List.Nodup.append h (List.nodup_singleton p) ?_
    intro x hx hxp
    rw [List.mem_singleton] at hxp
    subst hxp
    exact hn hx

/-- Helper for C8: emitting one window's pairs preserves duplicate-freeness. -/
theorem emit_pairs_nodup (st : WinSt) (acc : List (String × String))
    (h : acc.Nodup) : (emit_pairs acc st).Nodup := by
  unfold emit_pairs
  refine foldl_nodup_preserve _ ?_ st.refA acc h
  intro acc a ha
  exact foldl_nodup_preserve _ (fun acc b hb => add_pair_nodup acc (a, b) hb) st.refB acc ha

/-- Helper for C8: the global candidate list of a full run is duplicate-free. -/
theorem cand_ref_list_nodup (av bv : List String) (w : Nat) (rep : List String) :
    (cand_ref_list av bv w rep).Nodup := by
  unfold cand_ref_list
  exact foldl_nodup_preserve _ (fun acc i h => emit_pairs_nodup _ acc h) _ [] List.nodup_nil

/-- Helper for C8: successful resolution produces exactly one block table
entry per candidate pair. -/
theorem resolve_all_length (f : String × String → Option (List Nat × List Nat)) :
    ∀ (l : List (String × String)) (r : List (List Nat × List Nat)),
      resolve_all f l = some r → r.length = l.length := by
  intro l
  induction l with
  | nil =>
    intro r h
    obtain rfl := Option.some.inj h
    rfl
  | cons p l ih =>
    intro r h
    unfold resolve_all at h
    cases hf : f p with
    | none => rw [hf] at h; exact absurd h (by simp)
    | some b =>
      rw [hf] at h
      cases hr : resolve_all f l with
      | none => rw [hr] at h; exact absurd h (by simp)
      | some bs =>
        rw [hr] at h
        obtain rfl := Option.some.inj h
        simp [ih bs hr]

/-- C8: across one full `generate_blocks` run of the sorted-neighbourhood
class, the candidate list holds each ordered (Alice value, Bob value) pair at
most once, and a successful resolution phase turns the deduplicated pairs into
exactly one block table entry each (entry `n` sits under the fresh sequential
key `n`). -/
theorem snn_no_duplicate_pairs (st : SnnState) (tbl : List (List Nat × List Nat))
    (h : snn_generate_blocks st = some tbl) :
    (cand_ref_list st.alice_rep_vals st.bob_rep_vals st.w (snn_rep_list st)).Nodup ∧
      tbl.length =
        (cand_ref_list st.alice_rep_vals st.bob_rep_vals st.w (snn_rep_list st)).length := by
  refine ⟨cand_ref_list_nodup _ _ _ _, ?_⟩
  unfold snn_generate_blocks at h
  cases hA : st.index_alice with
  | none => rw [hA] at h; exact absurd h (by simp)
  | some idxA =>
    rw [hA] at h
    cases hB : st.index_bob with
    | none => rw [hB] at h; exact absurd h (by simp)
    | some idxB =>
      rw [hB] at h
      exact resolve_all_length _ _ _ h

/-- Concrete two-bucket instance state used by the C8 witness. -/
def st8 : SnnState :=
  { k := 1, w := 1, sim_measure := fun _ _ => 0, min_sim_threshold := 1,
    sim_or_size := "SIM",
    alice_rep_vals := ["a", "b"], bob_rep_vals := ["a", "b"],
    alice_rep_index := [("a", [0]), ("b", [1])],
    bob_rep_index := [("a", [0]), ("b", [1])],
    index_alice := some [([0], [10]), ([1], [11])],
    index_bob := some [([0], [20]), ([1], [21])] }

/-- Witness for C8 on a concrete run producing four candidate pairs and four
block table entries. -/
theorem snn_no_duplicate_pairs_wit :
    (cand_ref_list st8.alice_rep_vals st8.bob_rep_vals st8.w (snn_rep_list st8)).Nodup ∧
      ([([10], [20]), ([10], [21]), ([11], [20]), ([11], [21])] :
          List (List Nat × List Nat)).length =
        (cand_ref_list st8.alice_rep_vals st8.bob_rep_vals st8.w (snn_rep_list st8)).length :=
  snn_no_duplicate_pairs st8 [([10], [20]), ([10], [21]), ([11], [20]), ([11], [21])]
    (by decide)

/-- C9: with an unbuilt index on either side — for either class — the
`generate_blocks` call fails instead of returning a block table, so it never
silently yields an empty result, and a built index for one party with a
missing index for the other is rejected as well. -/
theorem generate_blocks_requires_built_indexes (st : SnnState) (ps : PsigState)
    (hs : st.index_alice = none ∨ st.index_bob = none)
    (hp : ps.index_alice = none ∨ ps.index_bob = none) :
    snn_generate_blocks st = none ∧ psig_generate_blocks ps = none := by
  constructor
  · unfold snn_generate_blocks
    rcases hs with h | h
    · rw [h]; rfl
    · cases hA : st.index_alice <;> simp [h]
  · unfold psig_generate_blocks
    rcases hp with h | h
    · rw [h]; rfl
    · cases hA : ps.index_alice <;> simp [h]

/-- Fresh sorted-neighbourhood instance (no index built) for the C9 witness. -/
def st9 : SnnState :=
  { k := 1, w := 1, sim_measure := fun _ _ => 0, min_sim_threshold := 1,
    sim_or_size := "SIM" }

/-- Fresh p-sig instance (no index built) for the C9 witness. -/
def ps9 : PsigState :=
  { num_hash_funct := 3, bf_len := 10, h1 := fun _ => 0, h2 := fun _ => 0 }

/-- Witness for C9 on fresh instances of both classes. -/
theorem generate_blocks_requires_built_indexes_wit :
    snn_generate_blocks st9 = none ∧ psig_generate_blocks ps9 = none :=
  generate_blocks_requires_built_indexes st9 ps9 (Or.inl rfl) (Or.inl rfl)

/-- Helper for C10: the explicit success equation of `build_index_alice`. -/
theorem build_index_alice_some (attrs : List Nat) (st : SnnState)
    (rl : List String) (rd : List (Nat × List String)) (idx : List (List Nat × List Nat))
    (hrl : st.ref_val_list_alice = some rl) (hrd : st.rec_dict_alice = some rd)
    (hidx : generate_sorted_index st.k st.sim_measure st.min_sim_threshold st.sim_or_size
      rd attrs (pySorted rl) = some idx) :
    build_index_alice attrs st = some { st with
      attr_select_list_alice := some attrs
      sort_ref_val_list_alice := some (pySorted rl)
      index_alice := some idx
      alice_rep_index := (select_rep_ref_vals idx (ref_ind_at (pySorted rl))).2
      alice_rep_vals := st.alice_rep_vals ++
        (select_rep_ref_vals idx (ref_ind_at (pySorted rl))).1.map
          (ref_ind_at (pySorted rl)) } := by
  unfold build_index_alice
  rw [hrl]
  simp only [Option.bind_eq_bind, Option.some_bind]
  rw [hrd]
  simp only [Option.some_bind]
  rw [hidx]
  simp only [Option.some_bind]

/-- Helper for C10: the explicit success equation of `build_index_bob`. -/
theorem build_index_bob_some (attrs : List Nat) (st : SnnState)
    (rl : List String) (rd : List (Nat × List String)) (idx : List (List Nat × List Nat))
    (hrl : st.ref_val_list_bob = some rl) (hrd : st.rec_dict_bob = some rd)
    (hidx : generate_sorted_index st.k st.sim_measure st.min_sim_threshold st.sim_or_size
      rd attrs (pySorted rl) = some idx) :
    build_index_bob attrs st = some { st with
      attr_select_list_bob := some attrs
      sort_ref_val_list_bob := some (pySorted rl)
      index_bob := some idx
      bob_rep_index := (select_rep_ref_vals idx (ref_ind_at (pySorted rl))).2
      bob_rep_vals := st.bob_rep_vals ++
        (select_rep_ref_vals idx (ref_ind_at (pySorted rl))).1.map
          (ref_ind_at (pySorted rl)) } := by
  unfold build_index_bob
  rw [hrl]
  simp only [Option.bind_eq_bind, Option.some_bind]
  rw [hrd]
  simp only [Option.some_bind]
  rw [hidx]
  simp only [Option.some_bind]

/-- C10: the index builders append the exposed representative values to the
instance lists without clearing them, so they are not idempotent on instance
state.  Starting from a fresh list, a second call with the same attribute
selection on the state left by the first doubles `alice_rep_vals` (and,
symmetrically, `bob_rep_vals`), while the party index and representative
index are rebuilt equal to the single-call result. -/
theorem build_index_accumulates_rep_vals (stA stB : SnnState)
    (attrsA attrsB : List Nat) (st₁ st₁' : SnnState)
    (ha0 : stA.alice_rep_vals = []) (ha : build_index_alice attrsA stA = some st₁)
    (hb0 : stB.bob_rep_vals = []) (hb : build_index_bob attrsB stB = some st₁') :
    (∃ st₂, build_index_alice attrsA st₁ = some st₂ ∧
        st₂.alice_rep_vals = st₁.alice_rep_vals ++ st₁.alice_rep_vals ∧
        st₂.index_alice = st₁.index_alice ∧
        st₂.alice_rep_index = st₁.alice_rep_index) ∧
      (∃ st₂, build_index_bob attrsB st₁' = some st₂ ∧
        st₂.bob_rep_vals = st₁'.bob_rep_vals ++ st₁'.bob_rep_vals ∧
        st₂.index_bob = st₁'.index_bob ∧
        st₂.bob_rep_index = st₁'.bob_rep_index) := by
  constructor
  · unfold build_index_alice at ha
    cases hrl : stA.ref_val_list_alice with
    | none => rw [hrl] at ha; exact absurd ha (by simp)
    | some rl =>
      rw [hrl] at ha
      simp only [Option.bind_eq_bind, Option.some_bind] at ha
      cases hrd : stA.rec_dict_alice with
      | none => rw [hrd] at ha; exact absurd ha (by simp)
      | some rd =>
        rw [hrd] at ha
        simp only [Option.some_bind] at ha
        cases hidx : generate_sorted_index stA.k stA.sim_measure stA.min_sim_threshold
            stA.sim_or_size rd attrsA (pySorted rl) with
        | none => rw [hidx] at ha; exact absurd ha (by simp)
        | some idx =>
          rw [hidx] at ha
          simp only [Option.some_bind] at ha
          obtain rfl := Option.some.inj ha
          refine ⟨_, build_index_alice_some attrsA _ rl rd idx rfl rfl hidx, ?_, rfl, rfl⟩
          simp [ha0]
  · unfold build_index_bob at hb
    cases hrl : stB.ref_val_list_bob with
    | none => rw [hrl] at hb; exact absurd hb (by simp)
    | some rl =>
      rw [hrl] at hb
      simp only [Option.bind_eq_bind, Option.some_bind] at hb
      cases hrd : stB.rec_dict_bob with
      | none => rw [hrd] at hb; exact absurd hb (by simp)
      | some rd =>
        rw [hrd] at hb
        simp only [Option.some_bind] at hb
        cases hidx : generate_sorted_index stB.k stB.sim_measure stB.min_sim_threshold
            stB.sim_or_size rd attrsB (pySorted rl) with
        | none => rw [hidx] at hb; exact absurd hb (by simp)
        | some idx =>
          rw [hidx] at hb
          simp only [Option.some_bind] at hb
          obtain rfl := Option.some.inj hb
          refine ⟨_, build_index_bob_some attrsB _ rl rd idx rfl rfl hidx, ?_, rfl, rfl⟩
          simp [hb0]

/-- Fresh instance with loaded record tables and reference values for the C10
witness. -/
def st10 : SnnState :=
  { k := 1, w := 1, sim_measure := fun _ _ => 0, min_sim_threshold := 1,
    sim_or_size := "SIM",
    ref_val_list_alice := some ["b"], ref_val_list_bob := some ["b"],
    rec_dict_alice := some [(1, ["a"])], rec_dict_bob := some [(2, ["a"])] }

/-- State of `st10` after one `build_index_alice` call. -/
def st10A : SnnState :=
  { st10 with
    attr_select_list_alice := some [0]
    sort_ref_val_list_alice := some ["b"]
    index_alice := some [([0], [1])]
    alice_rep_index := [("", [0])]
    alice_rep_vals := [""] }

/-- State of `st10` after one `build_index_bob` call. -/
def st10B : SnnState :=
  { st10 with
    attr_select_list_bob := some [0]
    sort_ref_val_list_bob := some ["b"]
    index_bob := some [([0], [2])]
    bob_rep_index := [("", [0])]
    bob_rep_vals := [""] }

/-- Witness for C10 on a concrete one-record instance for each party. -/
theorem build_index_accumulates_rep_vals_wit :
    (∃ st₂, build_index_alice [0] st10A = some st₂ ∧
        st₂.alice_rep_vals = st10A.alice_rep_vals ++ st10A.alice_rep_vals ∧
        st₂.index_alice = st10A.index_alice ∧
        st₂.alice_rep_index = st10A.alice_rep_index) ∧
      (∃ st₂, build_index_bob [0] st10B = some st₂ ∧
        st₂.bob_rep_vals = st10B.bob_rep_vals ++ st10B.bob_rep_vals ∧
        st₂.index_bob = st10B.index_bob ∧
        st₂.bob_rep_index = st10B.bob_rep_index) :=
  build_index_accumulates_rep_vals st10 st10 [0] [0] st10A st10B rfl rfl rfl rfl

end Pprlblock
